import Mathlib

/-!
Shallow embedding of the bookscout cross-source canonical-identity
resolution and two-phase fetch pipeline (`src/bookscout/cli.py` and the
scraper interface in `src/bookscout/scrapers/base.py`), together with
proofs of the specified properties.

Conventions of the embedding:
* Python `Optional[str]` becomes `Option String`; Python truthiness of an
  optional string (`if x:`) is `pythonTruthy` (false on `None` and on `""`).
* Python `float` scores become `ℚ` (the algorithm only ever forms sums and
  products of reciprocals of positive integers).
* A Python `dict[str, float]` (insertion ordered) becomes an association
  list `List (String × ℚ)` in insertion order; `d.get(k, 0) + v` updates in
  place, new keys are appended at the end, exactly as in CPython.
* An `async` call that may raise becomes `Except String β`; an
  `asyncio.gather(..., return_exceptions=True)` over a task list becomes a
  `List (Except String β)` aligned with the tasks.
-/

namespace Bookscout

/-- `SearchResultItem` from `scrapers/base.py`: a lightweight search-result
stub with an optional ISBN, a product URL and an optional title. -/
structure SearchResultItem where
  isbn : Option String
  url : String
  title : Option String
  deriving DecidableEq, Repr

/-- `BookResult` from `models.py`: one store's final result row. -/
structure BookResult where
  store : String
  title : String
  price : String
  url : String
  isbn : Option String
  deriving DecidableEq, Repr

/-- Python truthiness of an optional string: `None` and `""` are falsy. -/
def pythonTruthy : Option String → Bool
  | none => false
  | some s => !(s == "")

/-- Update of the insertion-ordered score dictionary:
`isbn_scores[k] = isbn_scores.get(k, 0) + v`.  If the key is present its
(unique) entry is updated in place, keeping its position; otherwise the
pair is appended at the end — exactly a CPython dict assignment. -/
def updScore : List (String × ℚ) → String → ℚ → List (String × ℚ)
  | [], k, v => [(k, v)]
  | p :: rest, k, v =>
    if p.1 = k then (p.1, p.2 + v) :: rest else p :: updScore rest k v

/-- The inner loop of `find_canonical_isbn_weighted` over one store's
result list: `for position, item in enumerate(results, start=1): ...`.
`pos` is the 1-based position of the head of `items`; `seen` is the
per-store `seen_in_store` set. -/
def scoreStore (tbl : List (String × ℚ)) (seen : List String) (pos : ℕ) :
    List SearchResultItem → List (String × ℚ)
  | [] => tbl
  | it :: rest =>
    if pythonTruthy it.isbn ∧ it.isbn.getD "" ∉ seen then
      scoreStore (updScore tbl (it.isbn.getD "") ((1 : ℚ) / pos))
        (it.isbn.getD "" :: seen) (pos + 1) rest
    else
      scoreStore tbl seen (pos + 1) rest

/-- The outer loop of `find_canonical_isbn_weighted`: one `scoreStore`
pass per store, with a fresh `seen_in_store` and positions restarting
at 1. -/
def buildScores (store_results : List (List SearchResultItem)) : List (String × ℚ) :=
  store_results.foldl (fun tbl results => scoreStore tbl [] 1 results) []

/-- Python's `isbn.startswith("9798")`, modelled as equality of the first
four characters of the string. -/
def startsWith9798 (s : String) : Bool := s.data.take 4 == ['9', '7', '9', '8']

/-- The penalty loop: when the multiplier is `< 1`, every score whose key
starts with `"9798"` is multiplied by it (in-place update preserves both
keys and order). -/
def applyPenalty (pen : ℚ) (tbl : List (String × ℚ)) : List (String × ℚ) :=
  if pen < 1 then
    tbl.map (fun p => if startsWith9798 p.1 then (p.1, p.2 * pen) else p)
  else tbl

/-- One comparison step of Python's `max`: the candidate replaces the
current best only on a strictly greater value. -/
def maxStep (best q : String × ℚ) : String × ℚ := if q.2 > best.2 then q else best

/-- Python's `max(d, key=d.get)` over an insertion-ordered dict: scan in
order keeping the current best, replacing it only on a strictly greater
value, so the first maximal entry wins. -/
def argmaxFirst : List (String × ℚ) → Option (String × ℚ)
  | [] => none
  | p :: rest => some (rest.foldl maxStep p)

/-- The default `self_pub_penalty` of `find_canonical_isbn_weighted`
(Python `0.3`). -/
def defaultPenalty : ℚ := 3 / 10

/-- `find_canonical_isbn_weighted` from `cli.py`: position-weighted
scoring with per-store dedup, the 979-8 penalty, and a first-maximal
argmax. -/
def find_canonical_isbn_weighted (store_results : List (List SearchResultItem))
    (self_pub_penalty : ℚ) : Option String :=
  let isbn_scores := buildScores store_results
  if isbn_scores.isEmpty then none
  else (argmaxFirst (applyPenalty self_pub_penalty isbn_scores)).map (fun p => p.1)

/-! ## The orchestrator (`run_scrapers`) and its collaborators -/

/-- A source adapter: the four operations of `BaseScraper` consumed by the
core.  Each operation either raises (`Except.error` with an opaque
message) or returns its Python value; `BookResult | None` becomes
`Option BookResult`. -/
structure Scraper where
  search : String → Except String (Option BookResult)
  search_isbn : String → Except String (Option BookResult)
  get_search_results : String → Except String (List SearchResultItem)
  get_product_details : String → Except String (Option BookResult)

/-- Joining a settled task from `asyncio.gather(..., return_exceptions=True)`:
an exception becomes `None`, a value passes through. -/
def exceptJoin (r : Except String (Option BookResult)) : Option BookResult :=
  match r with
  | .error _ => none
  | .ok v => v

/-- The post-`gather` loop in `run_scrapers`:
`for r in results: processed.append(None if isinstance(r, Exception) else r)`. -/
def processGather (results : List (Except String (Option BookResult))) :
    List (Option BookResult) :=
  results.foldl (fun processed r => processed ++ [exceptJoin r]) []

/-- One settled phase-1 task converted to a candidate list:
`[] if isinstance(result, Exception) or not result else result` (an empty
list is falsy in Python). -/
def collectOne (r : Except String (List SearchResultItem)) : List SearchResultItem :=
  match r with
  | .error _ => []
  | .ok l => if l.isEmpty then [] else l

/-- The phase-1 collection loop in `run_scrapers`:
`store_search_results.append(...)` over the settled search tasks. -/
def collectSearchResults (search_results : List (Except String (List SearchResultItem))) :
    List (List SearchResultItem) :=
  search_results.foldl (fun acc r => acc ++ [collectOne r]) []

/-- The `matching_url` scan in `fetch_details`: first item whose `isbn`
equals the canonical ISBN (Python `item.isbn == isbn`, which is false when
`item.isbn` is `None`), then `break`. -/
def findMatchingUrl : List SearchResultItem → String → Option String
  | [], _ => none
  | it :: rest, isbn =>
    if it.isbn = some isbn then some it.url else findMatchingUrl rest isbn

/-- `fetch_details` from `run_scrapers` phase 2: the branch
`if matching_url:` is Python truthiness on an optional string, falsy both
when no stub matched (`None`) and when the first matching stub's URL is
the empty string; when truthy, fetch via that URL, otherwise one direct
`search_isbn` lookup; any exception becomes `None`. -/
def fetch_details (scraper : Scraper) (search_items : List SearchResultItem)
    (isbn : String) : Option BookResult :=
  let matching_url := findMatchingUrl search_items isbn
  if pythonTruthy matching_url then
    exceptJoin (scraper.get_product_details (matching_url.getD ""))
  else
    exceptJoin (scraper.search_isbn isbn)

/-- Phase 2 of `run_scrapers`: one `fetch_details` task per scraper,
paired with that scraper's phase-1 candidate list (`store_search_results[i]`
for `i, scraper in enumerate(scrapers)`). -/
def phase2Run (scrapers : List Scraper) (store_search_results : List (List SearchResultItem))
    (canonical_isbn : String) : List (Option BookResult) :=
  (scrapers.zip store_search_results).map
    (fun p => fetch_details p.1 p.2 canonical_isbn)

/-- The fallback path of `run_scrapers`: one plain `search` per scraper,
gathered with exception isolation. -/
def fallbackRun (query : String) (scrapers : List Scraper) : List (Option BookResult) :=
  processGather (scrapers.map (fun s => s.search query))

/-- The identifier-direct path of `run_scrapers` (`isbn_mode`): one
`search_isbn` per scraper, gathered with exception isolation. -/
def isbnModeRun (query : String) (scrapers : List Scraper) : List (Option BookResult) :=
  processGather (scrapers.map (fun s => s.search_isbn query))

/-- `run_scrapers` from `cli.py`, with the browser/playwright plumbing
elided and scrapers passed directly (the Python code builds one scraper
per requested store, in request order).  `if canonical_isbn:` is Python
truthiness on an optional string. -/
def run_scrapers (query : String) (scrapers : List Scraper)
    (isbn_mode : Bool) (validate_isbn : Bool) : List (Option BookResult) :=
  if isbn_mode then
    isbnModeRun query scrapers
  else if validate_isbn then
    let search_results := scrapers.map (fun s => s.get_search_results query)
    let store_search_results := collectSearchResults search_results
    let canonical_isbn := find_canonical_isbn_weighted store_search_results defaultPenalty
    if pythonTruthy canonical_isbn then
      phase2Run scrapers store_search_results (canonical_isbn.getD "")
    else
      fallbackRun query scrapers
  else
    fallbackRun query scrapers

/-! ## The command layer (`search` in `cli.py`) up to dispatch -/

/-- The four stores of the `Store` enum. -/
inductive Store where
  | blackwells | kennys | libristo | wordery
  deriving DecidableEq, Repr

/-- `list(Store)`: all stores in declaration order. -/
def allStores : List Store := [.blackwells, .kennys, .libristo, .wordery]

/-- `stores = store if store else list(Store)`: an absent or empty
`--store` selection is replaced by the full store list (Python truthiness
of an optional list). -/
def determineStores (store : Option (List Store)) : List Store :=
  match store with
  | none => allStores
  | some l => if l.isEmpty then allStores else l

/-- The query/mode determination at the top of the `search` command:
`if isbn: ... elif query: ... else: raise typer.Exit(1)`.  Returns the
search query and `isbn_mode`, or the synchronous exit code. -/
def determineQuery (query : String) (isbn : Option String) :
    Except ℕ (String × Bool) :=
  if pythonTruthy isbn then .ok (isbn.getD "", true)
  else if query ≠ "" then .ok (query, false)
  else .error 1

/-! ## Specification-side definitions

These restate the resolver's scoring rule in the words of the spec, to be
compared with the table the code builds. -/

/-- 0-based index of the first item of a list carrying exactly the ISBN
`s`, if any. -/
def firstIdx : List SearchResultItem → String → Option ℕ
  | [], _ => none
  | it :: rest, s =>
    if it.isbn = some s then some 0 else (firstIdx rest s).map (· + 1)

/-- The spec's per-source contribution for identifier `s`: `1/p` where `p`
is the 1-based position of the identifier's first occurrence in that
source's original list, and `0` when the source never surfaces it. -/
def storeContrib (items : List SearchResultItem) (s : String) : ℚ :=
  match firstIdx items s with
  | some j => (1 : ℚ) / (j + 1)
  | none => 0

/-- The spec's score of identifier `s`: the sum over all sources of the
per-source contribution. -/
def specScore (store_results : List (List SearchResultItem)) (s : String) : ℚ :=
  (store_results.map (fun items => storeContrib items s)).sum

/-- The truthy identifiers carried by one store's list, in rank order. -/
def truthyIds (items : List SearchResultItem) : List String :=
  items.filterMap
    (fun it => if pythonTruthy it.isbn then some (it.isbn.getD "") else none)

/-- The flattened scan of truthy identifiers, source by source and within
a source in rank order: the order in which the resolver's loop first
meets each identifier occurrence. -/
def scanIds (store_results : List (List SearchResultItem)) : List String :=
  store_results.flatMap truthyIds

/-- `s` is carried (as a truthy identifier) by some candidate. -/
def occursId (store_results : List (List SearchResultItem)) (s : String) : Prop :=
  s ∈ scanIds store_results

instance (store_results : List (List SearchResultItem)) (s : String) :
    Decidable (occursId store_results s) := by
  unfold occursId; infer_instance

/-- First-occurrence deduplication: fold that appends an element only
when it is new.  The keys of a CPython dict built by repeated
`d[k] = ...` updates appear in exactly this order. -/
def insertIfNew (acc : List String) (s : String) : List String :=
  if s ∈ acc then acc else acc ++ [s]

/-- First-occurrence dedup of a whole list. -/
def firstDedup (l : List String) : List String := l.foldl insertIfNew []

/-- The keys of the score table, in insertion order. -/
def keys (tbl : List (String × ℚ)) : List String := tbl.map Prod.fst

/-- Association-list lookup in the score table (`isbn_scores.get(s)`). -/
def getScore : List (String × ℚ) → String → Option ℚ
  | [], _ => none
  | p :: rest, s => if p.1 = s then some p.2 else getScore rest s

/-- Index of the first occurrence of a string in a list (equals the
length when the string is absent). -/
def idxOfS : List String → String → ℕ
  | [], _ => 0
  | a :: l, s => if a = s then 0 else idxOfS l s + 1

/-! ## Lemmas about the score dictionary -/

lemma getScore_updScore_self (tbl : List (String × ℚ)) (k : String) (v : ℚ) :
    getScore (updScore tbl k v) k = some ((getScore tbl k).getD 0 + v) := by
  induction tbl with
  | nil => simp [updScore, getScore]
  | cons p rest ih =>
    by_cases h : p.1 = k
    · simp [updScore, getScore, h]
    · simp [updScore, getScore, h, ih]

lemma getScore_updScore_other (tbl : List (String × ℚ)) (k s : String) (v : ℚ)
    (hne : s ≠ k) : getScore (updScore tbl k v) s = getScore tbl s := by
  induction tbl with
  | nil =>
    have : ¬ (k = s) := fun h => hne h.symm
    simp [updScore, getScore, this]
  | cons p rest ih =>
    by_cases h : p.1 = k
    · have h2 : ¬ (p.1 = s) := by
        intro hs
        exact hne (by rw [← hs, h])
      simp [updScore, getScore, h, h2, Ne.symm hne]
    · by_cases h2 : p.1 = s <;> simp [updScore, getScore, h, h2, ih, hne]

lemma mem_insertIfNew_self (acc : List String) (s : String) : s ∈ insertIfNew acc s := by
  by_cases h : s ∈ acc <;> simp [insertIfNew, h]

lemma mem_insertIfNew_of_mem {acc : List String} {a : String} (s : String)
    (h : a ∈ acc) : a ∈ insertIfNew acc s := by
  by_cases hs : s ∈ acc <;> simp [insertIfNew, hs, h]

lemma insertIfNew_cons (a s : String) (acc : List String) (h : a ≠ s) :
    insertIfNew (a :: acc) s = a :: insertIfNew acc s := by
  have : ¬ (s = a) := fun hs => h hs.symm
  by_cases hm : s ∈ acc <;> simp [insertIfNew, this, hm]

lemma keys_cons (p : String × ℚ) (rest : List (String × ℚ)) :
    keys (p :: rest) = p.1 :: keys rest := rfl

lemma keys_updScore (tbl : List (String × ℚ)) (k : String) (v : ℚ) :
    keys (updScore tbl k v) = insertIfNew (keys tbl) k := by
  induction tbl with
  | nil => simp [updScore, keys, insertIfNew]
  | cons p rest ih =>
    by_cases h : p.1 = k
    · subst h
      simp [updScore, keys, insertIfNew]
    · have step : updScore (p :: rest) k v = p :: updScore rest k v := by
        simp [updScore, h]
      rw [step, keys_cons, ih, keys_cons, insertIfNew_cons p.1 k (keys rest) h]

lemma getScore_isSome_iff (tbl : List (String × ℚ)) (s : String) :
    (getScore tbl s).isSome ↔ s ∈ keys tbl := by
  induction tbl with
  | nil => simp [getScore, keys]
  | cons p rest ih =>
    by_cases h : p.1 = s
    · simp [getScore, keys_cons, h]
    · have h2 : ¬ (s = p.1) := fun hs => h hs.symm
      simp [getScore, keys_cons, h, h2, ih]

lemma mem_of_getScore {tbl : List (String × ℚ)} {s : String} {v : ℚ}
    (h : getScore tbl s = some v) : (s, v) ∈ tbl := by
  induction tbl with
  | nil => simp [getScore] at h
  | cons p rest ih =>
    by_cases hp : p.1 = s
    · simp [getScore, hp] at h
      subst hp
      cases p with
      | mk a b =>
        subst h
        exact List.mem_cons_self _ _
    · simp [getScore, hp] at h
      exact List.mem_cons_of_mem _ (ih h)

/-! ## Lemmas about the per-store scoring loop -/

lemma pythonTruthy_some_iff (x : String) : pythonTruthy (some x) = true ↔ x ≠ "" := by
  simp [pythonTruthy]

lemma scoreStore_cons_insert (tbl : List (String × ℚ)) (seen : List String) (pos : ℕ)
    (it : SearchResultItem) (rest : List SearchResultItem) (x : String)
    (hib : it.isbn = some x) (hx : x ≠ "") (hnotseen : x ∉ seen) :
    scoreStore tbl seen pos (it :: rest) =
      scoreStore (updScore tbl x ((1 : ℚ) / pos)) (x :: seen) (pos + 1) rest := by
  simp [scoreStore, hib, pythonTruthy, hx, hnotseen]

lemma scoreStore_cons_skip (tbl : List (String × ℚ)) (seen : List String) (pos : ℕ)
    (it : SearchResultItem) (rest : List SearchResultItem)
    (h : ¬((pythonTruthy it.isbn = true) ∧ it.isbn.getD "" ∉ seen)) :
    scoreStore tbl seen pos (it :: rest) = scoreStore tbl seen (pos + 1) rest := by
  simp only [scoreStore]
  rw [if_neg h]

lemma getScore_scoreStore_of_seen (items : List SearchResultItem) :
    ∀ (tbl : List (String × ℚ)) (seen : List String) (pos : ℕ) (s : String),
      s ∈ seen → getScore (scoreStore tbl seen pos items) s = getScore tbl s := by
  induction items with
  | nil => intro tbl seen pos s _; rfl
  | cons it rest ih =>
    intro tbl seen pos s hs
    by_cases hg : (pythonTruthy it.isbn = true) ∧ it.isbn.getD "" ∉ seen
    · obtain ⟨ht, hn⟩ := hg
      cases hib : it.isbn with
      | none => rw [hib] at ht; simp [pythonTruthy] at ht
      | some x =>
        rw [hib] at ht hn
        simp only [Option.getD_some] at hn
        have hx : x ≠ "" := (pythonTruthy_some_iff x).mp ht
        rw [scoreStore_cons_insert tbl seen pos it rest x hib hx hn]
        rw [ih _ _ _ s (List.mem_cons_of_mem _ hs)]
        exact getScore_updScore_other tbl x s _ (fun h => hn (h ▸ hs))
    · rw [scoreStore_cons_skip tbl seen pos it rest hg]
      exact ih _ _ _ s hs

lemma firstIdx_cons_hit (it : SearchResultItem) (rest : List SearchResultItem)
    (s : String) (h : it.isbn = some s) : firstIdx (it :: rest) s = some 0 := by
  simp [firstIdx, h]

lemma firstIdx_cons_miss (it : SearchResultItem) (rest : List SearchResultItem)
    (s : String) (h : ¬ it.isbn = some s) :
    firstIdx (it :: rest) s = (firstIdx rest s).map (· + 1) := by
  simp [firstIdx, h]

lemma getScore_scoreStore_of_absent (items : List SearchResultItem) :
    ∀ (tbl : List (String × ℚ)) (seen : List String) (pos : ℕ) (s : String),
      firstIdx items s = none →
      getScore (scoreStore tbl seen pos items) s = getScore tbl s := by
  induction items with
  | nil => intro tbl seen pos s _; rfl
  | cons it rest ih =>
    intro tbl seen pos s hnone
    have hmiss : ¬ it.isbn = some s := by
      intro h
      rw [firstIdx_cons_hit it rest s h] at hnone
      exact Option.some_ne_none _ hnone
    rw [firstIdx_cons_miss it rest s hmiss] at hnone
    have hrest : firstIdx rest s = none := by
      cases h : firstIdx rest s
      · rfl
      · rw [h] at hnone; simp at hnone
    by_cases hg : (pythonTruthy it.isbn = true) ∧ it.isbn.getD "" ∉ seen
    · obtain ⟨ht, hn⟩ := hg
      cases hib : it.isbn with
      | none => rw [hib] at ht; simp [pythonTruthy] at ht
      | some x =>
        rw [hib] at ht hn
        simp only [Option.getD_some] at hn
        have hx : x ≠ "" := (pythonTruthy_some_iff x).mp ht
        have hxs : s ≠ x := by
          intro h
          exact hmiss (by rw [hib, h])
        rw [scoreStore_cons_insert tbl seen pos it rest x hib hx hn]
        rw [ih _ _ _ s hrest]
        exact getScore_updScore_other tbl x s _ hxs
    · rw [scoreStore_cons_skip tbl seen pos it rest hg]
      exact ih _ _ _ s hrest

lemma getScore_scoreStore_of_first (items : List SearchResultItem) :
    ∀ (tbl : List (String × ℚ)) (seen : List String) (pos : ℕ) (s : String) (j : ℕ),
      firstIdx items s = some j → s ≠ "" → s ∉ seen →
      getScore (scoreStore tbl seen pos items) s =
        some ((getScore tbl s).getD 0 + (1 : ℚ) / ((pos + j : ℕ) : ℚ)) := by
  induction items with
  | nil => intro tbl seen pos s j hj; simp [firstIdx] at hj
  | cons it rest ih =>
    intro tbl seen pos s j hj hx hs
    by_cases hhit : it.isbn = some s
    · rw [firstIdx_cons_hit it rest s hhit] at hj
      have hj0 : j = 0 := by simpa using hj.symm
      subst hj0
      rw [scoreStore_cons_insert tbl seen pos it rest s hhit hx hs]
      rw [getScore_scoreStore_of_seen rest _ _ _ s (List.mem_cons_self _ _)]
      rw [getScore_updScore_self tbl s _]
      norm_num
    · rw [firstIdx_cons_miss it rest s hhit] at hj
      obtain ⟨j', hj', rfl⟩ : ∃ j', firstIdx rest s = some j' ∧ j = j' + 1 := by
        cases h : firstIdx rest s
        · rw [h] at hj; simp at hj
        · rw [h] at hj
          simp at hj
          exact ⟨_, rfl, hj.symm⟩
      by_cases hg : (pythonTruthy it.isbn = true) ∧ it.isbn.getD "" ∉ seen
      · obtain ⟨ht, hn⟩ := hg
        cases hib : it.isbn with
        | none => rw [hib] at ht; simp [pythonTruthy] at ht
        | some x =>
          rw [hib] at ht hn
          simp only [Option.getD_some] at hn
          have hx' : x ≠ "" := (pythonTruthy_some_iff x).mp ht
          have hxs : s ≠ x := by
            intro h
            exact hhit (by rw [hib, h])
          rw [scoreStore_cons_insert tbl seen pos it rest x hib hx' hn]
          rw [ih _ _ _ s j' hj' hx (by simp [hxs, hs])]
          rw [getScore_updScore_other tbl x s _ hxs]
          have harith : pos + 1 + j' = pos + (j' + 1) := by omega
          rw [harith]
      · rw [scoreStore_cons_skip tbl seen pos it rest hg]
        rw [ih _ _ _ s j' hj' hx hs]
        have harith : pos + 1 + j' = pos + (j' + 1) := by omega
        rw [harith]

/-! ## The score table agrees with the spec's scoring formula -/

lemma scanIds_cons (items : List SearchResultItem) (rest : List (List SearchResultItem)) :
    scanIds (items :: rest) = truthyIds items ++ scanIds rest := by
  simp [scanIds]

lemma truthyIds_cons_none (it : SearchResultItem) (rest : List SearchResultItem)
    (hib : it.isbn = none) : truthyIds (it :: rest) = truthyIds rest := by
  simp [truthyIds, List.filterMap_cons, hib, pythonTruthy]

lemma truthyIds_cons_empty (it : SearchResultItem) (rest : List SearchResultItem)
    (hib : it.isbn = some "") : truthyIds (it :: rest) = truthyIds rest := by
  simp [truthyIds, List.filterMap_cons, hib, pythonTruthy]

lemma truthyIds_cons_some (it : SearchResultItem) (rest : List SearchResultItem)
    (x : String) (hib : it.isbn = some x) (hx : x ≠ "") :
    truthyIds (it :: rest) = x :: truthyIds rest := by
  simp [truthyIds, List.filterMap_cons, hib, pythonTruthy, hx]

lemma mem_truthyIds_iff (items : List SearchResultItem) (s : String) (hx : s ≠ "") :
    s ∈ truthyIds items ↔ (firstIdx items s).isSome := by
  induction items with
  | nil => simp [truthyIds, firstIdx]
  | cons it rest ih =>
    cases hib : it.isbn with
    | none =>
      rw [truthyIds_cons_none it rest hib,
          firstIdx_cons_miss it rest s (by rw [hib]; simp)]
      rw [ih]
      cases firstIdx rest s <;> simp
    | some x =>
      by_cases hx' : x = ""
      · subst hx'
        rw [truthyIds_cons_empty it rest hib,
            firstIdx_cons_miss it rest s (by rw [hib]; simp [Ne.symm hx])]
        rw [ih]
        cases firstIdx rest s <;> simp
      · by_cases hxs : x = s
        · subst hxs
          rw [truthyIds_cons_some it rest x hib hx', firstIdx_cons_hit it rest x hib]
          simp
        · have hsx : ¬ s = x := fun h => hxs h.symm
          rw [truthyIds_cons_some it rest x hib hx',
              firstIdx_cons_miss it rest s (by rw [hib]; simp [hxs])]
          rw [List.mem_cons]
          rw [show (s ∈ truthyIds rest) = ((firstIdx rest s).isSome = true) from
            propext ih]
          cases firstIdx rest s <;> simp [hsx]

lemma specScore_cons (items : List SearchResultItem) (rest : List (List SearchResultItem))
    (s : String) : specScore (items :: rest) s = storeContrib items s + specScore rest s := by
  simp [specScore]

lemma specScore_eq_zero (stores : List (List SearchResultItem)) (s : String)
    (hx : s ≠ "") (h : s ∉ scanIds stores) : specScore stores s = 0 := by
  induction stores with
  | nil => simp [specScore]
  | cons items rest ih =>
    rw [scanIds_cons] at h
    simp only [List.mem_append] at h
    push_neg at h
    have h1 : s ∉ truthyIds items := h.1
    have hf : firstIdx items s = none := by
      cases hfi : firstIdx items s
      · rfl
      · exact absurd ((mem_truthyIds_iff items s hx).mpr (by simp [hfi])) h1
    rw [specScore_cons, ih h.2]
    simp [storeContrib, hf]

lemma getScore_foldl_scoreStore (stores : List (List SearchResultItem)) :
    ∀ (tbl : List (String × ℚ)) (s : String), s ≠ "" →
      getScore (stores.foldl (fun tbl results => scoreStore tbl [] 1 results) tbl) s =
        if s ∈ scanIds stores then some ((getScore tbl s).getD 0 + specScore stores s)
        else getScore tbl s := by
  induction stores with
  | nil => intro tbl s _; simp [scanIds, specScore]
  | cons items rest ih =>
    intro tbl s hx
    rw [List.foldl_cons, ih _ s hx]
    cases hf : firstIdx items s with
    | none =>
      have h1 : getScore (scoreStore tbl [] 1 items) s = getScore tbl s :=
        getScore_scoreStore_of_absent items tbl [] 1 s hf
      have h2 : s ∉ truthyIds items := by
        rw [mem_truthyIds_iff items s hx]
        simp [hf]
      have hcontrib : storeContrib items s = 0 := by simp [storeContrib, hf]
      have hmem : (s ∈ scanIds (items :: rest)) = (s ∈ scanIds rest) := by
        simp [scanIds_cons, h2]
      by_cases hr : s ∈ scanIds rest
      · rw [if_pos hr, if_pos (by rw [hmem]; exact hr), h1, specScore_cons, hcontrib, zero_add]
      · rw [if_neg hr, if_neg (by rw [hmem]; exact hr), h1]
    | some j =>
      have h1 : getScore (scoreStore tbl [] 1 items) s =
          some ((getScore tbl s).getD 0 + (1 : ℚ) / ((1 + j : ℕ) : ℚ)) :=
        getScore_scoreStore_of_first items tbl [] 1 s j hf hx (by simp)
      have h2 : s ∈ truthyIds items := (mem_truthyIds_iff items s hx).mpr (by simp [hf])
      have hmem : s ∈ scanIds (items :: rest) := by
        rw [scanIds_cons]
        exact List.mem_append_left _ h2
      have hcontrib : storeContrib items s = (1 : ℚ) / ((1 + j : ℕ) : ℚ) := by
        simp only [storeContrib, hf]
        congr 1
        push_cast
        ring
      by_cases hr : s ∈ scanIds rest
      · rw [if_pos hr, if_pos hmem, h1, specScore_cons, hcontrib]
        simp only [Option.getD_some]
        congr 1
        ring
      · rw [if_neg hr, if_pos hmem, h1, specScore_cons, hcontrib,
            specScore_eq_zero rest s hx hr, add_zero]

/-- For a nonempty identifier, the score table the code builds holds
exactly the spec's score: the sum over sources of `1/p` at the first
occurrence, present iff the identifier is carried by some candidate. -/
lemma getScore_buildScores (stores : List (List SearchResultItem)) (s : String)
    (hx : s ≠ "") :
    getScore (buildScores stores) s =
      if s ∈ scanIds stores then some (specScore stores s) else none := by
  unfold buildScores
  rw [getScore_foldl_scoreStore stores [] s hx]
  simp [getScore]

/-! ## Keys of the score table: first-occurrence scan order -/

lemma foldl_insertIfNew_filter_seen (l : List String) :
    ∀ (K seen : List String) (s : String), s ∈ K →
      List.foldl insertIfNew K (l.filter (fun x => x ∉ s :: seen)) =
      List.foldl insertIfNew K (l.filter (fun x => x ∉ seen)) := by
  induction l with
  | nil => intros; rfl
  | cons a l ih =>
    intro K seen s hs
    by_cases has : a = s
    · subst has
      rw [show List.filter (fun x => decide (x ∉ a :: seen)) (a :: l) =
            List.filter (fun x => decide (x ∉ a :: seen)) l from by simp]
      by_cases hmem : a ∈ seen
      · rw [show List.filter (fun x => decide (x ∉ seen)) (a :: l) =
              List.filter (fun x => decide (x ∉ seen)) l from by simp [hmem]]
        exact ih K seen a hs
      · rw [show List.filter (fun x => decide (x ∉ seen)) (a :: l) =
              a :: List.filter (fun x => decide (x ∉ seen)) l from by simp [hmem]]
        rw [List.foldl_cons]
        rw [show insertIfNew K a = K from by simp [insertIfNew, hs]]
        exact ih K seen a hs
    · by_cases hmem : a ∈ seen
      · rw [show List.filter (fun x => decide (x ∉ s :: seen)) (a :: l) =
              List.filter (fun x => decide (x ∉ s :: seen)) l from by simp [hmem]]
        rw [show List.filter (fun x => decide (x ∉ seen)) (a :: l) =
              List.filter (fun x => decide (x ∉ seen)) l from by simp [hmem]]
        exact ih K seen s hs
      · rw [show List.filter (fun x => decide (x ∉ s :: seen)) (a :: l) =
              a :: List.filter (fun x => decide (x ∉ s :: seen)) l from by
                simp [hmem, has]]
        rw [show List.filter (fun x => decide (x ∉ seen)) (a :: l) =
              a :: List.filter (fun x => decide (x ∉ seen)) l from by simp [hmem]]
        rw [List.foldl_cons, List.foldl_cons]
        exact ih (insertIfNew K a) seen s (mem_insertIfNew_of_mem a hs)

lemma keys_scoreStore (items : List SearchResultItem) :
    ∀ (tbl : List (String × ℚ)) (seen : List String) (pos : ℕ),
      keys (scoreStore tbl seen pos items) =
        List.foldl insertIfNew (keys tbl) ((truthyIds items).filter (fun x => x ∉ seen)) := by
  induction items with
  | nil => intro tbl seen pos; simp [scoreStore, truthyIds]
  | cons it rest ih =>
    intro tbl seen pos
    cases hib : it.isbn with
    | none =>
      rw [scoreStore_cons_skip tbl seen pos it rest (by simp [hib, pythonTruthy]),
          truthyIds_cons_none it rest hib]
      exact ih tbl seen (pos + 1)
    | some x =>
      by_cases hx : x = ""
      · subst hx
        rw [scoreStore_cons_skip tbl seen pos it rest (by simp [hib, pythonTruthy]),
            truthyIds_cons_empty it rest hib]
        exact ih tbl seen (pos + 1)
      · by_cases hseen : x ∈ seen
        · rw [scoreStore_cons_skip tbl seen pos it rest
                (by simp [hib, pythonTruthy, hseen]),
              truthyIds_cons_some it rest x hib hx]
          rw [show List.filter (fun y => decide (y ∉ seen)) (x :: truthyIds rest) =
                List.filter (fun y => decide (y ∉ seen)) (truthyIds rest) from by
                  simp [hseen]]
          exact ih tbl seen (pos + 1)
        · rw [scoreStore_cons_insert tbl seen pos it rest x hib hx hseen,
              truthyIds_cons_some it rest x hib hx]
          rw [ih _ _ _, keys_updScore]
          rw [foldl_insertIfNew_filter_seen (truthyIds rest) _ seen x
                (mem_insertIfNew_self (keys tbl) x)]
          rw [show List.filter (fun y => decide (y ∉ seen)) (x :: truthyIds rest) =
                x :: List.filter (fun y => decide (y ∉ seen)) (truthyIds rest) from by
                  simp [hseen]]
          rw [List.foldl_cons]

lemma filter_not_mem_nil (l : List String) :
    l.filter (fun x => x ∉ ([] : List String)) = l := by
  apply List.filter_eq_self.mpr
  intro a _
  simp

lemma keys_foldl_scoreStore (stores : List (List SearchResultItem)) :
    ∀ (tbl : List (String × ℚ)),
      keys (stores.foldl (fun tbl results => scoreStore tbl [] 1 results) tbl) =
        List.foldl insertIfNew (keys tbl) (scanIds stores) := by
  induction stores with
  | nil => intro tbl; rfl
  | cons items rest ih =>
    intro tbl
    rw [List.foldl_cons, ih, keys_scoreStore, filter_not_mem_nil,
        scanIds_cons, List.foldl_append]

/-- The keys of the table built by the code are exactly the truthy
identifiers in first-occurrence scan order. -/
lemma keys_buildScores (stores : List (List SearchResultItem)) :
    keys (buildScores stores) = firstDedup (scanIds stores) := by
  unfold buildScores firstDedup
  exact keys_foldl_scoreStore stores []

/-! ## First-occurrence dedup and scan positions -/

lemma firstDedup_append_singleton (l : List String) (x : String) :
    firstDedup (l ++ [x]) = insertIfNew (firstDedup l) x := by
  unfold firstDedup
  rw [List.foldl_append]
  rfl

lemma mem_insertIfNew_iff (acc : List String) (s a : String) :
    a ∈ insertIfNew acc s ↔ a ∈ acc ∨ a = s := by
  by_cases h : s ∈ acc
  · simp only [insertIfNew, if_pos h]
    constructor
    · exact Or.inl
    · rintro (h1 | rfl)
      · exact h1
      · exact h
  · simp [insertIfNew, h]

lemma mem_firstDedup (l : List String) (a : String) :
    a ∈ firstDedup l ↔ a ∈ l := by
  induction l using List.reverseRecOn with
  | nil => simp [firstDedup]
  | append_singleton l x ih =>
    rw [firstDedup_append_singleton, mem_insertIfNew_iff]
    simp [ih]

lemma nodup_insertIfNew (acc : List String) (s : String) (h : acc.Nodup) :
    (insertIfNew acc s).Nodup := by
  by_cases hm : s ∈ acc
  · simpa [insertIfNew, hm] using h
  · simp [insertIfNew, hm, List.nodup_append, h]

lemma nodup_firstDedup (l : List String) : (firstDedup l).Nodup := by
  induction l using List.reverseRecOn with
  | nil => simp [firstDedup]
  | append_singleton l x ih =>
    rw [firstDedup_append_singleton]
    exact nodup_insertIfNew _ x ih

lemma firstDedup_eq_nil_iff (l : List String) : firstDedup l = [] ↔ l = [] := by
  constructor
  · intro h
    cases l with
    | nil => rfl
    | cons a l =>
      have : a ∈ firstDedup (a :: l) := (mem_firstDedup _ a).mpr (List.mem_cons_self a l)
      rw [h] at this
      exact absurd this (List.not_mem_nil a)
  · intro h; subst h; rfl

lemma idxOfS_append_left (l₁ l₂ : List String) (a : String) (h : a ∈ l₁) :
    idxOfS (l₁ ++ l₂) a = idxOfS l₁ a := by
  induction l₁ with
  | nil => exact absurd h (List.not_mem_nil a)
  | cons b l ih =>
    by_cases hb : b = a
    · simp [idxOfS, hb]
    · have : a ∈ l := by
        cases h with
        | head => exact absurd rfl hb
        | tail _ h => exact h
      simp [idxOfS, hb, ih this]

lemma idxOfS_append_right (l₁ l₂ : List String) (a : String) (h : a ∉ l₁) :
    idxOfS (l₁ ++ l₂) a = l₁.length + idxOfS l₂ a := by
  induction l₁ with
  | nil => simp
  | cons b l ih =>
    have hb : ¬ b = a := fun hba => h (hba ▸ List.mem_cons_self b l)
    have hl : a ∉ l := fun hal => h (List.mem_cons_of_mem b hal)
    simp [idxOfS, hb, ih hl]
    omega

lemma idxOfS_lt_length (l : List String) (a : String) (h : a ∈ l) :
    idxOfS l a < l.length := by
  induction l with
  | nil => exact absurd h (List.not_mem_nil a)
  | cons b l ih =>
    by_cases hb : b = a
    · simp [idxOfS, hb]
    · have : a ∈ l := by
        cases h with
        | head => exact absurd rfl hb
        | tail _ h => exact h
      simp [idxOfS, hb]
      exact ih this

/-- The deduplicated scan list is strictly sorted by position of first
occurrence in the underlying scan. -/
lemma pairwise_idxOfS_firstDedup (l : List String) :
    (firstDedup l).Pairwise (fun a b => idxOfS l a < idxOfS l b) := by
  induction l using List.reverseRecOn with
  | nil => simp [firstDedup]
  | append_singleton l x ih =>
    rw [firstDedup_append_singleton]
    by_cases hm : x ∈ firstDedup l
    · rw [show insertIfNew (firstDedup l) x = firstDedup l from by
        simp [insertIfNew, hm]]
      refine ih.imp_of_mem ?_
      intro a b ha hb hR
      rw [idxOfS_append_left l [x] a ((mem_firstDedup l a).mp ha),
          idxOfS_append_left l [x] b ((mem_firstDedup l b).mp hb)]
      exact hR
    · rw [show insertIfNew (firstDedup l) x = firstDedup l ++ [x] from by
        simp [insertIfNew, hm]]
      rw [List.pairwise_append]
      refine ⟨?_, by simp, ?_⟩
      · refine ih.imp_of_mem ?_
        intro a b ha hb hR
        rw [idxOfS_append_left l [x] a ((mem_firstDedup l a).mp ha),
            idxOfS_append_left l [x] b ((mem_firstDedup l b).mp hb)]
        exact hR
      · intro a ha b hb
        have hbx : b = x := by simpa using hb
        subst hbx
        have hal : a ∈ l := (mem_firstDedup l a).mp ha
        have hxl : b ∉ l := fun hc => hm ((mem_firstDedup l b).mpr hc)
        rw [idxOfS_append_left l [b] a hal, idxOfS_append_right l [b] b hxl]
        have h1 := idxOfS_lt_length l a hal
        omega

/-! ## The penalty pass -/

lemma keys_applyPenalty (pen : ℚ) (tbl : List (String × ℚ)) :
    keys (applyPenalty pen tbl) = keys tbl := by
  unfold applyPenalty
  by_cases hp : pen < 1
  · rw [if_pos hp]
    induction tbl with
    | nil => rfl
    | cons p rest ih =>
      by_cases hs : startsWith9798 p.1 <;> simp [keys_cons, hs, ih]
  · rw [if_neg hp]

lemma getScore_applyPenalty (pen : ℚ) (tbl : List (String × ℚ)) (s : String) :
    getScore (applyPenalty pen tbl) s =
      (getScore tbl s).map
        (fun v => if pen < 1 ∧ startsWith9798 s then v * pen else v) := by
  unfold applyPenalty
  by_cases hp : pen < 1
  · rw [if_pos hp]
    induction tbl with
    | nil => rfl
    | cons p rest ih =>
      by_cases hps : p.1 = s
      · subst hps
        by_cases hsw : startsWith9798 p.1 <;> simp [getScore, hsw, hp]
      · by_cases hsw : startsWith9798 p.1 <;> simp [getScore, hps, hsw, ih]
  · rw [if_neg hp]
    cases h : getScore tbl s <;> simp [hp]

lemma applyPenalty_ne_nil (pen : ℚ) (tbl : List (String × ℚ)) (h : tbl ≠ []) :
    applyPenalty pen tbl ≠ [] := by
  intro hcon
  apply h
  have hk : keys (applyPenalty pen tbl) = keys tbl := keys_applyPenalty pen tbl
  rw [hcon] at hk
  have : tbl.map Prod.fst = [] := hk.symm
  exact List.map_eq_nil_iff.mp this

/-! ## The argmax scan -/

lemma foldl_maxStep_mem (l : List (String × ℚ)) :
    ∀ b : String × ℚ, List.foldl maxStep b l ∈ b :: l := by
  induction l with
  | nil => intro b; simp
  | cons q t ih =>
    intro b
    rw [List.foldl_cons]
    by_cases hq : q.2 > b.2
    · have hstep : maxStep b q = q := by unfold maxStep; rw [if_pos hq]
      rw [hstep]
      rcases List.mem_cons.mp (ih q) with h1 | h1
      · rw [h1]; simp
      · simp [h1]
    · have hstep : maxStep b q = b := by unfold maxStep; rw [if_neg hq]
      rw [hstep]
      rcases List.mem_cons.mp (ih b) with h1 | h1
      · rw [h1]; simp
      · simp [h1]

lemma foldl_maxStep_le (l : List (String × ℚ)) :
    ∀ b : String × ℚ, b.2 ≤ (List.foldl maxStep b l).2 ∧
      ∀ q ∈ l, q.2 ≤ (List.foldl maxStep b l).2 := by
  induction l with
  | nil => intro b; simp
  | cons q t ih =>
    intro b
    rw [List.foldl_cons]
    obtain ⟨h1, h2⟩ := ih (maxStep b q)
    have hbq : b.2 ≤ (maxStep b q).2 := by
      unfold maxStep
      by_cases hq : q.2 > b.2
      · rw [if_pos hq]; exact le_of_lt hq
      · rw [if_neg hq]
    have hqq : q.2 ≤ (maxStep b q).2 := by
      unfold maxStep
      by_cases hq : q.2 > b.2
      · rw [if_pos hq]
      · rw [if_neg hq]; exact le_of_not_lt hq
    refine ⟨le_trans hbq h1, ?_⟩
    intro p hp
    rcases List.mem_cons.mp hp with h | h
    · rw [h]; exact le_trans hqq h1
    · exact h2 p h

lemma foldl_maxStep_split (l : List (String × ℚ)) :
    ∀ b : String × ℚ, ∃ l₁ l₂, b :: l = l₁ ++ (List.foldl maxStep b l) :: l₂ ∧
      ∀ q ∈ l₁, q.2 < (List.foldl maxStep b l).2 := by
  induction l with
  | nil => intro b; exact ⟨[], [], rfl, by simp⟩
  | cons q t ih =>
    intro b
    rw [List.foldl_cons]
    by_cases hq : q.2 > b.2
    · have hstep : maxStep b q = q := by unfold maxStep; rw [if_pos hq]
      rw [hstep]
      obtain ⟨l₁, l₂, heq, hlt⟩ := ih q
      refine ⟨b :: l₁, l₂, by rw [List.cons_append, ← heq], ?_⟩
      intro p hp
      rcases List.mem_cons.mp hp with h | h
      · rw [h]
        exact lt_of_lt_of_le hq (foldl_maxStep_le t q).1
      · exact hlt p h
    · have hstep : maxStep b q = b := by unfold maxStep; rw [if_neg hq]
      rw [hstep]
      obtain ⟨l₁, l₂, heq, hlt⟩ := ih b
      cases l₁ with
      | nil =>
        simp only [List.nil_append] at heq
        refine ⟨[], q :: t, ?_, by simp⟩
        rw [List.nil_append]
        rw [show List.foldl maxStep b t = b from (List.cons.injEq _ _ _ _ ▸ heq).1.symm]
      | cons c l₁' =>
        have hc : c = b ∧ t = l₁' ++ List.foldl maxStep b t :: l₂ := by
          rw [List.cons_append] at heq
          exact ⟨(List.cons.injEq _ _ _ _ ▸ heq).1.symm, (List.cons.injEq _ _ _ _ ▸ heq).2⟩
        refine ⟨b :: q :: l₁', l₂, ?_, ?_⟩
        · rw [List.cons_append, List.cons_append, ← hc.2]
        · intro p hp
          have hb2 : b.2 < (List.foldl maxStep b t).2 := by
            apply hlt
            rw [hc.1] at *
            exact List.mem_cons_self b l₁'
          rcases List.mem_cons.mp hp with h | h
          · rw [h]; exact hb2
          · rcases List.mem_cons.mp h with h' | h'
            · rw [h']
              exact lt_of_le_of_lt (le_of_not_lt hq) hb2
            · apply hlt
              exact List.mem_cons_of_mem c h'

/-! ## Resolver characterization -/

lemma buildScores_eq_nil_iff (stores : List (List SearchResultItem)) :
    buildScores stores = [] ↔ scanIds stores = [] := by
  constructor
  · intro h
    have : keys (buildScores stores) = [] := by rw [h]; rfl
    rw [keys_buildScores] at this
    exact (firstDedup_eq_nil_iff _).mp this
  · intro h
    have : firstDedup (scanIds stores) = [] := by rw [h]; rfl
    rw [← keys_buildScores] at this
    exact List.map_eq_nil_iff.mp this

lemma resolver_eq_none_iff (stores : List (List SearchResultItem)) (pen : ℚ) :
    find_canonical_isbn_weighted stores pen = none ↔ scanIds stores = [] := by
  unfold find_canonical_isbn_weighted
  by_cases h : (buildScores stores).isEmpty
  · simp only [h, if_pos]
    simp only [true_iff, List.isEmpty_iff] at h ⊢
    exact (buildScores_eq_nil_iff stores).mp h
  · simp only [h]
    rw [if_neg (by simp [h])]
    have hne : buildScores stores ≠ [] := by
      intro hc; exact h (by simp [hc])
    have hpe : applyPenalty pen (buildScores stores) ≠ [] :=
      applyPenalty_ne_nil pen _ hne
    constructor
    · intro hc
      cases hpt : applyPenalty pen (buildScores stores) with
      | nil => exact absurd hpt hpe
      | cons p rest =>
        rw [hpt] at hc
        simp [argmaxFirst] at hc
    · intro hc
      exact absurd ((buildScores_eq_nil_iff stores).mpr hc) hne

lemma getScore_of_mem_nodup (tbl : List (String × ℚ)) (s : String) (v : ℚ)
    (hnd : (keys tbl).Nodup) (hmem : (s, v) ∈ tbl) : getScore tbl s = some v := by
  induction tbl with
  | nil => exact absurd hmem (List.not_mem_nil _)
  | cons p rest ih =>
    rw [keys_cons] at hnd
    rcases List.mem_cons.mp hmem with h | h
    · rw [← h]
      simp [getScore]
    · have hs : s ∈ keys rest := by
        have : s = (s, v).1 := rfl
        rw [this]
        exact List.mem_map_of_mem Prod.fst h
      have hps : ¬ p.1 = s := by
        intro hc
        exact (List.nodup_cons.mp hnd).1 (hc ▸ hs)
      simp only [getScore, if_neg hps]
      exact ih (List.nodup_cons.mp hnd).2 h

/-- When the resolver returns an identifier, it is the first maximal
entry of the penalized score table: it is a key, its penalized score is
maximal, and every strictly earlier key scores strictly less. -/
lemma resolver_some_spec (stores : List (List SearchResultItem)) (pen : ℚ)
    (m : String) (h : find_canonical_isbn_weighted stores pen = some m) :
    ∃ vm l₁ l₂,
      applyPenalty pen (buildScores stores) = l₁ ++ (m, vm) :: l₂ ∧
      (∀ q ∈ applyPenalty pen (buildScores stores), q.2 ≤ vm) ∧
      (∀ q ∈ l₁, q.2 < vm) := by
  unfold find_canonical_isbn_weighted at h
  by_cases hempty : (buildScores stores).isEmpty
  · rw [if_pos hempty] at h; exact absurd h (by simp)
  · rw [if_neg hempty] at h
    cases hpt : applyPenalty pen (buildScores stores) with
    | nil =>
      exact absurd hpt (applyPenalty_ne_nil pen _ (by simpa [List.isEmpty_iff] using hempty))
    | cons p rest =>
      rw [hpt] at h
      simp only [argmaxFirst, Option.map_some', Option.some.injEq] at h
      obtain ⟨l₁, l₂, heq, hlt⟩ := foldl_maxStep_split rest p
      obtain ⟨hle1, hle2⟩ := foldl_maxStep_le rest p
      have hr : (m, (List.foldl maxStep p rest).2) = List.foldl maxStep p rest := by
        rw [← h]
      refine ⟨(List.foldl maxStep p rest).2, l₁, l₂, ?_, ?_, hlt⟩
      · rw [hr]
        exact heq
      · intro q hq
        rcases List.mem_cons.mp hq with h1 | h1
        · rw [h1]; exact hle1
        · exact hle2 q h1

/-! ## Orchestrator characterization -/

lemma foldl_append_eq_map {α β : Type} (f : α → β) (l : List α) :
    ∀ acc : List β, List.foldl (fun acc r => acc ++ [f r]) acc l = acc ++ l.map f := by
  induction l with
  | nil => intro acc; simp
  | cons a l ih =>
    intro acc
    rw [List.foldl_cons, ih, List.map_cons]
    simp

lemma processGather_eq_map (rs : List (Except String (Option BookResult))) :
    processGather rs = rs.map exceptJoin := by
  unfold processGather
  rw [foldl_append_eq_map exceptJoin rs []]
  simp

lemma collectSearchResults_eq_map (rs : List (Except String (List SearchResultItem))) :
    collectSearchResults rs = rs.map collectOne := by
  unfold collectSearchResults
  rw [foldl_append_eq_map collectOne rs []]
  simp

lemma collectOne_ok (l : List SearchResultItem) : collectOne (.ok l) = l := by
  cases l <;> simp [collectOne]

lemma collectOne_error (e : String) : collectOne (.error e) = [] := rfl

lemma zip_map_self {α β : Type} (ss : List α) (g : α → β) :
    ss.zip (ss.map g) = ss.map (fun s => (s, g s)) := by
  induction ss with
  | nil => rfl
  | cons a l ih => simp [ih]

lemma phase2Run_eq_map (ss : List Scraper) (g : Scraper → List SearchResultItem)
    (c : String) :
    phase2Run ss (ss.map g) c = ss.map (fun s => fetch_details s (g s) c) := by
  unfold phase2Run
  rw [zip_map_self, List.map_map]
  rfl

lemma fallbackRun_eq_map (q : String) (ss : List Scraper) :
    fallbackRun q ss = ss.map (fun s => exceptJoin (s.search q)) := by
  unfold fallbackRun
  rw [processGather_eq_map, List.map_map]
  rfl

lemma isbnModeRun_eq_map (q : String) (ss : List Scraper) :
    isbnModeRun q ss = ss.map (fun s => exceptJoin (s.search_isbn q)) := by
  unfold isbnModeRun
  rw [processGather_eq_map, List.map_map]
  rfl

lemma mem_truthyIds_ne_empty (items : List SearchResultItem) (s : String)
    (h : s ∈ truthyIds items) : s ≠ "" := by
  induction items with
  | nil => simp [truthyIds] at h
  | cons it rest ih =>
    cases hib : it.isbn with
    | none =>
      rw [truthyIds_cons_none it rest hib] at h
      exact ih h
    | some x =>
      by_cases hx : x = ""
      · subst hx
        rw [truthyIds_cons_empty it rest hib] at h
        exact ih h
      · rw [truthyIds_cons_some it rest x hib hx] at h
        rcases List.mem_cons.mp h with h1 | h1
        · exact h1 ▸ hx
        · exact ih h1

lemma mem_scanIds_ne_empty (stores : List (List SearchResultItem)) (s : String)
    (h : s ∈ scanIds stores) : s ≠ "" := by
  induction stores with
  | nil => simp [scanIds] at h
  | cons items rest ih =>
    rw [scanIds_cons] at h
    rcases List.mem_append.mp h with h1 | h1
    · exact mem_truthyIds_ne_empty items s h1
    · exact ih h1

/-- A returned canonical identifier is a key of the table, hence a truthy
identifier from the scan; in particular it is never the empty string. -/
lemma resolver_some_mem_scan (stores : List (List SearchResultItem)) (pen : ℚ)
    (m : String) (h : find_canonical_isbn_weighted stores pen = some m) :
    m ∈ scanIds stores := by
  obtain ⟨vm, l₁, l₂, heq, -, -⟩ := resolver_some_spec stores pen m h
  have hmem : (m, vm) ∈ applyPenalty pen (buildScores stores) := by
    rw [heq]
    exact List.mem_append_right _ (List.mem_cons_self _ _)
  have hkey : m ∈ keys (applyPenalty pen (buildScores stores)) :=
    List.mem_map_of_mem Prod.fst hmem
  rw [keys_applyPenalty, keys_buildScores] at hkey
  exact (mem_firstDedup _ m).mp hkey

lemma resolver_some_ne_empty (stores : List (List SearchResultItem)) (pen : ℚ)
    (m : String) (h : find_canonical_isbn_weighted stores pen = some m) : m ≠ "" :=
  mem_scanIds_ne_empty stores m (resolver_some_mem_scan stores pen m h)

lemma run_scrapers_isbn_mode (q : String) (ss : List Scraper) (v : Bool) :
    run_scrapers q ss true v = ss.map (fun s => exceptJoin (s.search_isbn q)) := by
  unfold run_scrapers
  rw [if_pos rfl]
  exact isbnModeRun_eq_map q ss

lemma run_scrapers_no_validate (q : String) (ss : List Scraper) :
    run_scrapers q ss false false = ss.map (fun s => exceptJoin (s.search q)) := by
  unfold run_scrapers
  simp only [Bool.false_eq_true, if_false]
  exact fallbackRun_eq_map q ss

lemma run_scrapers_validate_some (q : String) (ss : List Scraper) (m : String)
    (h : find_canonical_isbn_weighted
        (collectSearchResults (ss.map (fun s => s.get_search_results q)))
        defaultPenalty = some m) :
    run_scrapers q ss false true =
      ss.map (fun s => fetch_details s (collectOne (s.get_search_results q)) m) := by
  have hm : m ≠ "" := resolver_some_ne_empty _ _ m h
  unfold run_scrapers
  simp only [Bool.false_eq_true, if_false, if_true, h]
  rw [if_pos (by simp [pythonTruthy, hm])]
  simp only [Option.getD_some]
  rw [collectSearchResults_eq_map, List.map_map]
  exact phase2Run_eq_map ss _ m

lemma run_scrapers_validate_none (q : String) (ss : List Scraper)
    (h : find_canonical_isbn_weighted
        (collectSearchResults (ss.map (fun s => s.get_search_results q)))
        defaultPenalty = none) :
    run_scrapers q ss false true = ss.map (fun s => exceptJoin (s.search q)) := by
  unfold run_scrapers
  simp only [Bool.false_eq_true, if_false, if_true, h]
  rw [if_neg (by simp [pythonTruthy])]
  exact fallbackRun_eq_map q ss

/-! ## The phase-2 matching scan -/

lemma findMatchingUrl_eq_none_iff (items : List SearchResultItem) (isbn : String) :
    findMatchingUrl items isbn = none ↔ ∀ it ∈ items, it.isbn ≠ some isbn := by
  induction items with
  | nil => simp [findMatchingUrl]
  | cons it rest ih =>
    by_cases h : it.isbn = some isbn
    · simp [findMatchingUrl, h]
    · simp [findMatchingUrl, h, ih]

lemma findMatchingUrl_first (l₁ : List SearchResultItem) (it : SearchResultItem)
    (l₂ : List SearchResultItem) (isbn : String)
    (h1 : ∀ x ∈ l₁, x.isbn ≠ some isbn) (h2 : it.isbn = some isbn) :
    findMatchingUrl (l₁ ++ it :: l₂) isbn = some it.url := by
  induction l₁ with
  | nil => simp [findMatchingUrl, h2]
  | cons x l ih =>
    have hx : ¬ x.isbn = some isbn := h1 x (List.mem_cons_self x l)
    rw [List.cons_append]
    simp only [findMatchingUrl, if_neg hx]
    exact ih (fun y hy => h1 y (List.mem_cons_of_mem x hy))

lemma findMatchingUrl_some_spec (items : List SearchResultItem) (isbn url : String)
    (h : findMatchingUrl items isbn = some url) :
    ∃ it ∈ items, it.isbn = some isbn ∧ it.url = url := by
  induction items with
  | nil => simp [findMatchingUrl] at h
  | cons it rest ih =>
    by_cases hit : it.isbn = some isbn
    · simp only [findMatchingUrl, if_pos hit, Option.some.injEq] at h
      exact ⟨it, List.mem_cons_self _ _, hit, h⟩
    · simp only [findMatchingUrl, if_neg hit] at h
      obtain ⟨x, hx, h1, h2⟩ := ih h
      exact ⟨x, List.mem_cons_of_mem _ hx, h1, h2⟩

lemma scanIds_eq_nil_iff (stores : List (List SearchResultItem)) :
    scanIds stores = [] ↔
      ∀ items ∈ stores, ∀ it ∈ items, pythonTruthy it.isbn = false := by
  unfold scanIds
  rw [List.flatMap_eq_nil_iff]
  constructor
  · intro h items hitems it hit
    have hn := h items hitems
    unfold truthyIds at hn
    rw [List.filterMap_eq_nil_iff] at hn
    have h2 := hn it hit
    by_cases hb : pythonTruthy it.isbn = true
    · rw [if_pos hb] at h2; exact absurd h2 (by simp)
    · simpa using hb
  · intro h items hitems
    unfold truthyIds
    rw [List.filterMap_eq_nil_iff]
    intro it hit
    rw [if_neg (by rw [h items hitems it hit]; simp)]

/-- A trivial adapter used to instantiate theorems at concrete inputs:
every operation succeeds with an empty result. -/
def demoScraper : Scraper :=
  ⟨fun _ => .ok none, fun _ => .ok none, fun _ => .ok [], fun _ => .ok none⟩

/-! ## Claims -/

/-- C2: in every mode (identifier-direct, two-phase-validated, or
single-phase fallback), `run_scrapers` returns exactly one slot per
requested source, and the slot at each index is the one produced for the
scraper at the same index of the request, regardless of which per-source
operations succeeded or failed. -/
theorem claim2_result_aligned_with_sources (q : String) (ss : List Scraper) (m v : Bool) :
    (run_scrapers q ss m v).length = ss.length ∧
    (m = true →
      ∀ i : ℕ, (run_scrapers q ss m v)[i]? =
        (ss[i]?).map (fun s => exceptJoin (s.search_isbn q))) ∧
    (m = false → v = true →
      ∀ i : ℕ, (run_scrapers q ss m v)[i]? =
        (ss[i]?).map (fun s =>
          match find_canonical_isbn_weighted
              (collectSearchResults (ss.map (fun s => s.get_search_results q)))
              defaultPenalty with
          | some c => fetch_details s (collectOne (s.get_search_results q)) c
          | none => exceptJoin (s.search q))) ∧
    (m = false → v = false →
      ∀ i : ℕ, (run_scrapers q ss m v)[i]? =
        (ss[i]?).map (fun s => exceptJoin (s.search q))) := by
  refine ⟨?_, ?_, ?_, ?_⟩
  · cases m
    · cases v
      · rw [run_scrapers_no_validate]
        exact List.length_map _ _
      · cases hres : find_canonical_isbn_weighted
            (collectSearchResults (ss.map (fun s => s.get_search_results q)))
            defaultPenalty with
        | none =>
          rw [run_scrapers_validate_none q ss hres]
          exact List.length_map _ _
        | some c =>
          rw [run_scrapers_validate_some q ss c hres]
          exact List.length_map _ _
    · rw [run_scrapers_isbn_mode]
      exact List.length_map _ _
  · rintro rfl i
    rw [run_scrapers_isbn_mode, List.getElem?_map]
  · rintro rfl rfl i
    cases hres : find_canonical_isbn_weighted
        (collectSearchResults (ss.map (fun s => s.get_search_results q)))
        defaultPenalty with
    | none =>
      rw [run_scrapers_validate_none q ss hres, List.getElem?_map]
    | some c =>
      rw [run_scrapers_validate_some q ss c hres, List.getElem?_map]
  · rintro rfl rfl i
    rw [run_scrapers_no_validate, List.getElem?_map]

/-- Witness for C2 at a concrete input: one scraper, identifier-direct
mode, slot 0 is that scraper's identifier search. -/
theorem claim2_witness :
    (run_scrapers "q" [demoScraper] true true)[0]? =
      ((([demoScraper] : List Scraper)[0]?).map
        (fun s => exceptJoin (s.search_isbn "q"))) :=
  (claim2_result_aligned_with_sources "q" [demoScraper] true true).2.1 rfl 0

/-- C5: the phase-1 collector records an empty candidate list for every
adapter whose search task failed with an exception or yielded no result,
at that adapter's input index; the collected list-of-lists is aligned by
input index, a failure never changes a sibling's slot, and the collector
is a total function (no exception reaches the caller). -/
theorem claim5_phase1_failure_isolated
    (rs rs' : List (Except String (List SearchResultItem))) :
    (collectSearchResults rs).length = rs.length ∧
    (∀ i : ℕ, (collectSearchResults rs)[i]? = (rs[i]?).map collectOne) ∧
    (∀ (i : ℕ) (e : String), rs[i]? = some (.error e) →
      (collectSearchResults rs)[i]? = some []) ∧
    (∀ i : ℕ, rs[i]? = some (.ok []) → (collectSearchResults rs)[i]? = some []) ∧
    (∀ i : ℕ, rs[i]? = rs'[i]? →
      (collectSearchResults rs)[i]? = (collectSearchResults rs')[i]?) := by
  refine ⟨?_, ?_, ?_, ?_, ?_⟩
  · rw [collectSearchResults_eq_map]
    exact List.length_map _ _
  · intro i
    rw [collectSearchResults_eq_map, List.getElem?_map]
  · intro i e h
    rw [collectSearchResults_eq_map, List.getElem?_map, h]
    rfl
  · intro i h
    rw [collectSearchResults_eq_map, List.getElem?_map, h]
    rfl
  · intro i h
    rw [collectSearchResults_eq_map, List.getElem?_map, h,
        collectSearchResults_eq_map, List.getElem?_map]

/-- Witness for C5 at a concrete input: a failed task at index 0 collects
to the empty candidate list. -/
theorem claim5_witness :
    (collectSearchResults [Except.error "boom"])[0]? = some [] :=
  (claim5_phase1_failure_isolated [Except.error "boom"] []).2.2.1 0 "boom" rfl

/-- C10 counterexample: when the first matching stub's locator is the
empty string, the scan still stops there, but `if matching_url:` is falsy
on `""`, so the code takes the `search_isbn` fallback: no stub's locator
is used at all.  Observable here because the fallback and the detail
fetch return different results: with two stubs carrying the canonical
identifier (locators `""` and `"u2"`), the fetch returns the fallback's
result rather than detail fetched via either locator. -/
theorem claim10_counterexample :
    fetch_details
      (Scraper.mk (fun _ => .ok none)
        (fun _ => .ok (some ⟨"S", "fallback", "P", "U", none⟩))
        (fun _ => .ok [])
        (fun _ => .ok (some ⟨"S", "detail", "P", "U", none⟩)))
      [⟨some "1111111111111", "", none⟩, ⟨some "1111111111111", "u2", none⟩]
      "1111111111111" =
      some ⟨"S", "fallback", "P", "U", none⟩ ∧
    (⟨some "1111111111111", "", none⟩ : SearchResultItem).isbn =
      some "1111111111111" := by
  exact ⟨rfl, rfl⟩

/-- C10 amended: when a source's candidate list contains more than one
stub carrying the canonical identifier, the fetch is decided by the first
(lowest-index) matching stub alone: if its locator is nonempty the detail
is fetched via that locator; if its locator is empty (falsy in Python)
the code takes the fallback identifier lookup instead.  In either case
the stubs after the first match are never consulted (the result does not
depend on them). -/
theorem claim10_amended_first_matching_stub (scraper : Scraper) (isbn : String)
    (l₁ : List SearchResultItem) (it : SearchResultItem) (l₂ : List SearchResultItem)
    (h1 : ∀ x ∈ l₁, x.isbn ≠ some isbn) (h2 : it.isbn = some isbn) :
    (it.url ≠ "" →
      fetch_details scraper (l₁ ++ it :: l₂) isbn =
        exceptJoin (scraper.get_product_details it.url)) ∧
    (it.url = "" →
      fetch_details scraper (l₁ ++ it :: l₂) isbn =
        exceptJoin (scraper.search_isbn isbn)) ∧
    (∀ l₂' : List SearchResultItem,
      fetch_details scraper (l₁ ++ it :: l₂) isbn =
        fetch_details scraper (l₁ ++ it :: l₂') isbn) := by
  have hmu : ∀ t : List SearchResultItem,
      findMatchingUrl (l₁ ++ it :: t) isbn = some it.url :=
    fun t => findMatchingUrl_first l₁ it t isbn h1 h2
  refine ⟨?_, ?_, ?_⟩
  · intro hne
    unfold fetch_details
    rw [hmu l₂]
    rw [if_pos (by simp [pythonTruthy, hne])]
    rfl
  · intro he
    unfold fetch_details
    rw [hmu l₂]
    rw [if_neg (by simp [pythonTruthy, he])]
  · intro l₂'
    unfold fetch_details
    rw [hmu l₂, hmu l₂']

/-- Witness for C10 (amended) at a concrete input: two stubs carry the
canonical identifier, the first matching one has a nonempty locator, and
the fetch uses that locator's URL. -/
theorem claim10_witness :
    fetch_details demoScraper
      [⟨some "2222222222222", "u2", none⟩, ⟨some "1111111111111", "u1", none⟩,
       ⟨some "1111111111111", "u3", none⟩] "1111111111111" =
      exceptJoin (demoScraper.get_product_details "u1") :=
  ((claim10_amended_first_matching_stub demoScraper "1111111111111"
    [⟨some "2222222222222", "u2", none⟩] ⟨some "1111111111111", "u1", none⟩
    [⟨some "1111111111111", "u3", none⟩] (by decide) rfl).1 (by decide))

/-- C4 counterexample: a stub can carry the canonical identifier while
its locator is the empty string; `if matching_url:` is Python truthiness
and falsy on `""`, so the code performs the fallback identifier lookup
even though a matching stub exists — observable here because the fallback
and the detail fetch return different results for this adapter. -/
theorem claim4_counterexample :
    fetch_details
      (Scraper.mk (fun _ => .ok none)
        (fun _ => .ok (some ⟨"S", "fallback", "P", "U", none⟩))
        (fun _ => .ok [])
        (fun _ => .ok (some ⟨"S", "detail", "P", "U", none⟩)))
      [⟨some "1111111111111", "", none⟩] "1111111111111" =
      some ⟨"S", "fallback", "P", "U", none⟩ ∧
    (⟨some "1111111111111", "", none⟩ : SearchResultItem).isbn =
      some "1111111111111" :=
  ⟨rfl, rfl⟩

/-- C4 amended: in phase 2, for each source independently: when the first
stub carrying the canonical identifier has a nonempty (truthy) locator,
the fetch goes through `get_product_details` on that URL and the
identifier lookup is never consulted (the result is invariant under
replacing `search_isbn`); when no stub matches — or the first matching
stub's locator is the empty string, which is falsy in Python — the fetch
is exactly the one fallback `search_isbn` lookup and
`get_product_details` is never consulted; an exception from either fetch
yields `none` for that slot. -/
theorem claim4_amended_phase2_locator_or_fallback (scraper : Scraper)
    (items : List SearchResultItem) (isbn : String) :
    ((∃ url, findMatchingUrl items isbn = some url ∧ url ≠ "") →
      (∃ it, it ∈ items ∧ it.isbn = some isbn ∧
        fetch_details scraper items isbn =
          exceptJoin (scraper.get_product_details it.url)) ∧
      (∀ f : String → Except String (Option BookResult),
        fetch_details
          (Scraper.mk scraper.search f scraper.get_search_results
            scraper.get_product_details) items isbn =
          fetch_details scraper items isbn)) ∧
    (((∀ it ∈ items, it.isbn ≠ some isbn) ∨ findMatchingUrl items isbn = some "") →
      fetch_details scraper items isbn = exceptJoin (scraper.search_isbn isbn) ∧
      (∀ g : String → Except String (Option BookResult),
        fetch_details
          (Scraper.mk scraper.search scraper.search_isbn scraper.get_search_results g)
          items isbn =
          fetch_details scraper items isbn)) ∧
    (∀ (e : String) (url : String), findMatchingUrl items isbn = some url → url ≠ "" →
      scraper.get_product_details url = .error e →
      fetch_details scraper items isbn = none) ∧
    (∀ e : String, pythonTruthy (findMatchingUrl items isbn) = false →
      scraper.search_isbn isbn = .error e →
      fetch_details scraper items isbn = none) := by
  refine ⟨?_, ?_, ?_, ?_⟩
  · rintro ⟨url, hurl, hune⟩
    constructor
    · obtain ⟨it, hmem, hisbn, hu⟩ := findMatchingUrl_some_spec items isbn url hurl
      refine ⟨it, hmem, hisbn, ?_⟩
      simp only [fetch_details]
      rw [hurl, if_pos (by simp [pythonTruthy, hune]), hu]
      rfl
    · intro f
      simp only [fetch_details]
      rw [hurl, if_pos (by simp [pythonTruthy, hune]),
          if_pos (by simp [pythonTruthy, hune])]
  · intro hcase
    have hfalse : pythonTruthy (findMatchingUrl items isbn) = false := by
      rcases hcase with hall | hempty
      · rw [(findMatchingUrl_eq_none_iff items isbn).mpr hall]
        rfl
      · rw [hempty]
        rfl
    constructor
    · simp only [fetch_details]
      rw [if_neg (by simp [hfalse])]
    · intro g
      simp only [fetch_details]
      rw [if_neg (by simp [hfalse]), if_neg (by simp [hfalse])]
  · intro e url hurl hune herr
    simp only [fetch_details]
    rw [hurl, if_pos (by simp [pythonTruthy, hune])]
    simp only [Option.getD_some]
    rw [herr]
    rfl
  · intro e hfalse herr
    simp only [fetch_details]
    rw [if_neg (by simp [hfalse]), herr]
    rfl

/-- Witness for C4 (amended) at a concrete input: with no matching stub,
the slot is the fallback identifier lookup (which succeeds with an empty
result for the demo adapter). -/
theorem claim4_witness :
    fetch_details demoScraper [⟨some "2222222222222", "u2", none⟩] "1111111111111" =
      exceptJoin (demoScraper.search_isbn "1111111111111") :=
  ((claim4_amended_phase2_locator_or_fallback demoScraper
    [⟨some "2222222222222", "u2", none⟩] "1111111111111").2.1 (Or.inl (by decide))).1

/-- C6 counterexample: a call with an empty source list does not fail.
The orchestrator invoked with an empty adapter list returns the empty
(well-formed) result sequence in every mode, and the command layer
replaces an empty `--store` selection with the full store list instead of
rejecting it, so no configuration failure is raised on this input. -/
theorem claim6_counterexample :
    run_scrapers "query" [] true true = [] ∧
    run_scrapers "query" [] false true = [] ∧
    run_scrapers "query" [] false false = [] ∧
    determineStores (some []) = allStores ∧
    determineStores none = allStores :=
  ⟨rfl, rfl, rfl, rfl, rfl⟩

/-- C6 amended: an empty source list never reaches the orchestrator as a
failure: the command layer substitutes the full store list for an absent
or empty selection, and `run_scrapers` on an empty adapter list returns
the empty result without invoking any adapter operation.  The only
synchronous pre-dispatch failure is the missing-query exit
(`typer.Exit(1)` when neither a title nor an identifier is given), and
there is no invalid mode (the mode flags are booleans). -/
theorem claim6_amended_no_empty_source_failure :
    (∀ (q : String) (m v : Bool), run_scrapers q [] m v = []) ∧
    determineStores (some []) = allStores ∧
    determineStores none = allStores ∧
    determineQuery "" none = .error 1 ∧
    (∀ (q : String) (isbn : Option String), determineQuery q isbn = .error 1 →
      q = "" ∧ pythonTruthy isbn = false) := by
  refine ⟨?_, rfl, rfl, rfl, ?_⟩
  · intro q m v
    cases m
    · cases v
      · rfl
      · rfl
    · rfl
  · intro q isbn h
    unfold determineQuery at h
    by_cases ht : pythonTruthy isbn = true
    · rw [if_pos ht] at h
      exact absurd h (by simp)
    · rw [if_neg ht] at h
      by_cases hq : q = ""
      · exact ⟨hq, by simpa using ht⟩
      · rw [if_pos (by simpa using hq)] at h
        exact absurd h (by simp)

/-- Witness for C6 (amended) at a concrete input. -/
theorem claim6_witness : run_scrapers "x" [] true false = [] :=
  claim6_amended_no_empty_source_failure.1 "x" true false

/-- C7: with title search and validation, `run_scrapers` executes the
phase-2 validated fetch iff the resolver returns a canonical identifier,
and the single-phase fallback otherwise; the fallback still yields one
slot per requested source in request order, with `none` for every adapter
whose search raised. -/
theorem claim7_resolver_gates_phase2 (q : String) (ss : List Scraper) :
    (∀ m : String,
      find_canonical_isbn_weighted
          (collectSearchResults (ss.map (fun s => s.get_search_results q)))
          defaultPenalty = some m →
      run_scrapers q ss false true =
        ss.map (fun s => fetch_details s (collectOne (s.get_search_results q)) m)) ∧
    (find_canonical_isbn_weighted
        (collectSearchResults (ss.map (fun s => s.get_search_results q)))
        defaultPenalty = none →
      run_scrapers q ss false true = ss.map (fun s => exceptJoin (s.search q))) ∧
    (fallbackRun q ss).length = ss.length ∧
    (∀ i : ℕ, (fallbackRun q ss)[i]? =
      (ss[i]?).map (fun s => exceptJoin (s.search q))) ∧
    (∀ (i : ℕ) (s : Scraper) (e : String), ss[i]? = some s →
      s.search q = .error e → (fallbackRun q ss)[i]? = some none) := by
  refine ⟨?_, ?_, ?_, ?_, ?_⟩
  · intro m h
    exact run_scrapers_validate_some q ss m h
  · intro h
    exact run_scrapers_validate_none q ss h
  · rw [fallbackRun_eq_map]
    exact List.length_map _ _
  · intro i
    rw [fallbackRun_eq_map, List.getElem?_map]
  · intro i s e hs herr
    rw [fallbackRun_eq_map, List.getElem?_map, hs]
    simp [exceptJoin, herr]

/-- Witness for C7 at a concrete input: the demo adapter surfaces no
candidates, the resolver returns `none`, and the call takes the fallback
path. -/
theorem claim7_witness :
    run_scrapers "q" [demoScraper] false true =
      List.map (fun s => exceptJoin (s.search "q")) [demoScraper] :=
  (claim7_resolver_gates_phase2 "q" [demoScraper]).2.1 rfl

/-- C8 counterexample: a candidate whose identifier is present but equal
to the empty string is ignored by the resolver (Python truthiness), so the
resolver returns `None` even though not every stub's identifier is absent
and the lists are not empty: the claim's "carries an identifier"
condition fails as stated. -/
theorem claim8_counterexample :
    find_canonical_isbn_weighted [[⟨some "", "u", none⟩]] defaultPenalty = none ∧
    (⟨some "", "u", none⟩ : SearchResultItem).isbn ≠ none := by
  constructor
  · simp [find_canonical_isbn_weighted, buildScores, scoreStore, pythonTruthy]
  · simp

/-- C8 amended: the resolver returns `None` iff no candidate in any
source's list carries a truthy identifier — present and nonempty;
equivalently, whenever some candidate carries a present nonempty
identifier, the resolver returns an identifier. -/
theorem claim8_amended_none_iff_no_truthy_identifier
    (stores : List (List SearchResultItem)) (pen : ℚ) :
    find_canonical_isbn_weighted stores pen = none ↔
      ∀ items ∈ stores, ∀ it ∈ items, pythonTruthy it.isbn = false := by
  rw [resolver_eq_none_iff, scanIds_eq_nil_iff]

/-- Witness for C8 (amended) at a concrete input. -/
theorem claim8_witness :
    find_canonical_isbn_weighted [[⟨none, "u", none⟩]] defaultPenalty = none :=
  (claim8_amended_none_iff_no_truthy_identifier [[⟨none, "u", none⟩]]
    defaultPenalty).mpr (by decide)

/-- C3: after accumulation and before the maximum is taken, the total of
every identifier with the low-trust `"9798"` prefix is multiplied by the
penalty multiplier (for the configured range `pen ≤ 1`; at `pen = 1` the
code skips the loop, which is the same as multiplying by 1).  With the
default multiplier, a suspect-prefix identifier at rank 1 in two sources
(raw 2.0, penalized 0.6) loses to an identifier at rank 1 in one source
(1.0); with the penalty disabled (multiplier 1) the suspect identifier
wins. -/
theorem claim3_penalty_applied_before_max (stores : List (List SearchResultItem))
    (pen : ℚ) (hpen : pen ≤ 1) :
    (∀ s ∈ scanIds stores,
      getScore (applyPenalty pen (buildScores stores)) s =
        some ((if startsWith9798 s then pen else 1) * specScore stores s)) ∧
    find_canonical_isbn_weighted
      [[⟨some "9798279289592", "u1", none⟩], [⟨some "9798279289592", "u2", none⟩],
       [⟨some "1111111111111", "u3", none⟩]] defaultPenalty = some "1111111111111" ∧
    find_canonical_isbn_weighted
      [[⟨some "9798279289592", "u1", none⟩], [⟨some "9798279289592", "u2", none⟩],
       [⟨some "1111111111111", "u3", none⟩]] 1 = some "9798279289592" := by
  refine ⟨?_, ?_, ?_⟩
  · intro s hs
    have hne : s ≠ "" := mem_scanIds_ne_empty stores s hs
    rw [getScore_applyPenalty, getScore_buildScores stores s hne, if_pos hs]
    simp only [Option.map_some']
    congr 1
    by_cases hsw : startsWith9798 s = true
    · rw [if_pos hsw]
      by_cases hlt : pen < 1
      · rw [if_pos ⟨hlt, hsw⟩]
        ring
      · have hp1 : pen = 1 := le_antisymm hpen (not_lt.mp hlt)
        rw [if_neg (by exact fun h => hlt h.1), hp1, one_mul]
    · rw [if_neg (fun h : pen < 1 ∧ startsWith9798 s = true => hsw h.2),
          if_neg hsw, one_mul]
  · have h1 : startsWith9798 "1111111111111" = false := by decide
    have h2 : startsWith9798 "9798279289592" = true := by decide
    simp [find_canonical_isbn_weighted, buildScores, scoreStore, updScore, pythonTruthy,
      applyPenalty, defaultPenalty, h1, h2, argmaxFirst]
    norm_num [maxStep]
  · simp [find_canonical_isbn_weighted, buildScores, scoreStore, updScore, pythonTruthy,
      applyPenalty, argmaxFirst]
    norm_num [maxStep]

/-- Witness for C3 at a concrete input: the penalized table holds
`0.3 × 1.0` for a suspect-prefix identifier at rank 1 in one source. -/
theorem claim3_witness :
    getScore
      (applyPenalty defaultPenalty (buildScores [[⟨some "9798279289592", "u", none⟩]]))
      "9798279289592" =
      some ((if startsWith9798 "9798279289592" then defaultPenalty else 1) *
        specScore [[⟨some "9798279289592", "u", none⟩]] "9798279289592") :=
  (claim3_penalty_applied_before_max [[⟨some "9798279289592", "u", none⟩]]
    defaultPenalty (by norm_num [defaultPenalty])).1 "9798279289592" (by decide)

/-- C1 counterexample: as universally stated, the claim fails on two
concrete inputs.  (1) With the suspect-prefix identifier "9798279289592"
at rank 1 in two sources (claimed score 2) against "1111111111111" at
rank 1 in one source (claimed score 1), the resolver at its default
penalty returns the identifier with the strictly smaller 1/p-sum, because
the penalty rescales the table before the maximum.  (2) A present but
empty identifier is never scored: on `[["" at rank 1, B at rank 2]]` the
claimed scores are "" = 1 and B = 1/2, yet the resolver returns B. -/
theorem claim1_counterexample :
    find_canonical_isbn_weighted
      [[⟨some "9798279289592", "u1", none⟩], [⟨some "9798279289592", "u2", none⟩],
       [⟨some "1111111111111", "u3", none⟩]] defaultPenalty = some "1111111111111" ∧
    specScore
      [[⟨some "9798279289592", "u1", none⟩], [⟨some "9798279289592", "u2", none⟩],
       [⟨some "1111111111111", "u3", none⟩]] "9798279289592" = 2 ∧
    specScore
      [[⟨some "9798279289592", "u1", none⟩], [⟨some "9798279289592", "u2", none⟩],
       [⟨some "1111111111111", "u3", none⟩]] "1111111111111" = 1 ∧
    find_canonical_isbn_weighted
      [[⟨some "", "uE", none⟩, ⟨some "2222222222222", "uB", none⟩]] defaultPenalty =
        some "2222222222222" ∧
    specScore [[⟨some "", "uE", none⟩, ⟨some "2222222222222", "uB", none⟩]] "" = 1 ∧
    specScore [[⟨some "", "uE", none⟩, ⟨some "2222222222222", "uB", none⟩]]
      "2222222222222" = 1 / 2 := by
  refine ⟨?_, ?_, ?_, ?_, ?_, ?_⟩
  · have h1 : startsWith9798 "1111111111111" = false := by decide
    have h2 : startsWith9798 "9798279289592" = true := by decide
    simp [find_canonical_isbn_weighted, buildScores, scoreStore, updScore, pythonTruthy,
      applyPenalty, defaultPenalty, h1, h2, argmaxFirst]
    norm_num [maxStep]
  · simp [specScore, storeContrib, firstIdx]
    norm_num
  · simp [specScore, storeContrib, firstIdx]
  · have h2 : startsWith9798 "2222222222222" = false := by decide
    simp [find_canonical_isbn_weighted, buildScores, scoreStore, updScore, pythonTruthy,
      applyPenalty, defaultPenalty, h2, argmaxFirst]
  · simp [specScore, storeContrib, firstIdx]
  · simp [specScore, storeContrib, firstIdx]
    norm_num

/-- C1 amended: restricted to inputs whose (truthy) identifiers do not
carry the penalized "9798" prefix, and to nonempty identifiers (a
candidate whose identifier is absent or empty is never scored): the score
table holds, for each nonempty identifier, exactly the sum over sources
of `1/p` at the identifier's first occurrence in each source's original
list (later occurrences within a source contribute nothing), and the
resolver returns an identifier of maximal score.  The concrete example
`[[A]], [[A]], [[B,B,A]]` holds as stated: A = 1 + 1 + 1/3, B = 1,
resolver returns A. -/
theorem claim1_amended_weighted_scoring (stores : List (List SearchResultItem))
    (hsafe : ∀ s ∈ scanIds stores, startsWith9798 s = false) :
    (∀ s : String, s ≠ "" →
      getScore (buildScores stores) s =
        if s ∈ scanIds stores then some (specScore stores s) else none) ∧
    (∀ m : String, find_canonical_isbn_weighted stores defaultPenalty = some m →
      m ∈ scanIds stores ∧
      ∀ s ∈ scanIds stores, specScore stores s ≤ specScore stores m) ∧
    find_canonical_isbn_weighted
      [[⟨some "1111111111111", "u1", none⟩], [⟨some "1111111111111", "u2", none⟩],
       [⟨some "2222222222222", "u3a", none⟩, ⟨some "2222222222222", "u3b", none⟩,
        ⟨some "1111111111111", "u3c", none⟩]] defaultPenalty = some "1111111111111" ∧
    specScore
      [[⟨some "1111111111111", "u1", none⟩], [⟨some "1111111111111", "u2", none⟩],
       [⟨some "2222222222222", "u3a", none⟩, ⟨some "2222222222222", "u3b", none⟩,
        ⟨some "1111111111111", "u3c", none⟩]] "1111111111111" = 1 + 1 + 1 / 3 ∧
    specScore
      [[⟨some "1111111111111", "u1", none⟩], [⟨some "1111111111111", "u2", none⟩],
       [⟨some "2222222222222", "u3a", none⟩, ⟨some "2222222222222", "u3b", none⟩,
        ⟨some "1111111111111", "u3c", none⟩]] "2222222222222" = 1 := by
  have hps : ∀ t ∈ scanIds stores,
      getScore (applyPenalty defaultPenalty (buildScores stores)) t =
        some (specScore stores t) := by
    intro t ht
    rw [getScore_applyPenalty,
        getScore_buildScores stores t (mem_scanIds_ne_empty stores t ht), if_pos ht]
    simp [hsafe t ht]
  refine ⟨?_, ?_, ?_, ?_, ?_⟩
  · intro s hne
    exact getScore_buildScores stores s hne
  · intro m hm
    have hmm : m ∈ scanIds stores := resolver_some_mem_scan stores defaultPenalty m hm
    refine ⟨hmm, ?_⟩
    intro s hs
    obtain ⟨vm, l₁, l₂, heq, hle, hlt⟩ := resolver_some_spec stores defaultPenalty m hm
    have hnd : (keys (applyPenalty defaultPenalty (buildScores stores))).Nodup := by
      rw [keys_applyPenalty, keys_buildScores]
      exact nodup_firstDedup _
    have hmemm : (m, vm) ∈ applyPenalty defaultPenalty (buildScores stores) := by
      rw [heq]
      exact List.mem_append_right _ (List.mem_cons_self _ _)
    have h2 : getScore (applyPenalty defaultPenalty (buildScores stores)) m = some vm :=
      getScore_of_mem_nodup _ m vm hnd hmemm
    have hvm : vm = specScore stores m := by
      rw [hps m hmm] at h2
      simpa using h2.symm
    have hmems : (s, specScore stores s) ∈ applyPenalty defaultPenalty (buildScores stores) :=
      mem_of_getScore (hps s hs)
    have := hle _ hmems
    rw [hvm] at this
    exact this
  · have h1 : startsWith9798 "1111111111111" = false := by decide
    have h2 : startsWith9798 "2222222222222" = false := by decide
    simp [find_canonical_isbn_weighted, buildScores, scoreStore, updScore, pythonTruthy,
      applyPenalty, defaultPenalty, h1, h2, argmaxFirst]
    norm_num [maxStep]
  · simp [specScore, storeContrib, firstIdx]
    norm_num
  · simp [specScore, storeContrib, firstIdx]

/-- Witness for C1 (amended) at a concrete input: the cross-source
agreement example, with the no-suspect-prefix hypothesis discharged by
computation. -/
theorem claim1_witness :
    find_canonical_isbn_weighted
      [[⟨some "1111111111111", "u1", none⟩], [⟨some "1111111111111", "u2", none⟩],
       [⟨some "2222222222222", "u3a", none⟩, ⟨some "2222222222222", "u3b", none⟩,
        ⟨some "1111111111111", "u3c", none⟩]] defaultPenalty = some "1111111111111" :=
  (claim1_amended_weighted_scoring
    [[⟨some "1111111111111", "u1", none⟩], [⟨some "1111111111111", "u2", none⟩],
     [⟨some "2222222222222", "u3a", none⟩, ⟨some "2222222222222", "u3b", none⟩,
      ⟨some "1111111111111", "u3c", none⟩]] (by decide)).2.2.1

/-- C9: the resolver is a deterministic pure function of its input (equal
candidate lists and equal multiplier give equal results), and among
identifiers tied for the maximal (penalized) score it returns the one
whose first scored occurrence comes earliest in scan order — lowest
source index, then lowest rank within that source, which is the order of
first occurrence in the flattened scan `scanIds` — because the score
table preserves insertion order and the maximum keeps the first maximal
entry. -/
theorem claim9_deterministic_first_maximal_tiebreak
    (stores stores' : List (List SearchResultItem)) (pen pen' : ℚ) :
    (stores = stores' → pen = pen' →
      find_canonical_isbn_weighted stores pen =
        find_canonical_isbn_weighted stores' pen') ∧
    (∀ m s : String, find_canonical_isbn_weighted stores pen = some m →
      s ∈ scanIds stores → s ≠ m →
      getScore (applyPenalty pen (buildScores stores)) s =
        getScore (applyPenalty pen (buildScores stores)) m →
      idxOfS (scanIds stores) m < idxOfS (scanIds stores) s) := by
  constructor
  · intro h1 h2
    rw [h1, h2]
  · intro m s hm hs hne htie
    obtain ⟨vm, l₁, l₂, heq, hle, hlt⟩ := resolver_some_spec stores pen m hm
    have hnd : (keys (applyPenalty pen (buildScores stores))).Nodup := by
      rw [keys_applyPenalty, keys_buildScores]
      exact nodup_firstDedup _
    have hmemm : (m, vm) ∈ applyPenalty pen (buildScores stores) := by
      rw [heq]
      exact List.mem_append_right _ (List.mem_cons_self _ _)
    have hgm : getScore (applyPenalty pen (buildScores stores)) m = some vm :=
      getScore_of_mem_nodup _ m vm hnd hmemm
    have hsk : s ∈ keys (applyPenalty pen (buildScores stores)) := by
      rw [keys_applyPenalty, keys_buildScores]
      exact (mem_firstDedup _ s).mpr hs
    have hsome : (getScore (applyPenalty pen (buildScores stores)) s).isSome :=
      (getScore_isSome_iff _ s).mpr hsk
    obtain ⟨vs, hvs⟩ := Option.isSome_iff_exists.mp hsome
    have hvseq : vs = vm := by
      rw [hvs, hgm] at htie
      simpa using htie
    have hmems : (s, vs) ∈ applyPenalty pen (buildScores stores) := mem_of_getScore hvs
    rw [heq] at hmems
    rcases List.mem_append.mp hmems with h1 | h1
    · have := hlt _ h1
      rw [hvseq] at this
      exact absurd this (lt_irrefl vm)
    · rcases List.mem_cons.mp h1 with h2 | h2
      · exact absurd (congrArg Prod.fst h2) hne
      · have hkeys : firstDedup (scanIds stores) =
            keys l₁ ++ m :: keys l₂ := by
          rw [← keys_buildScores, ← keys_applyPenalty pen, heq]
          simp [keys]
        have hpw := pairwise_idxOfS_firstDedup (scanIds stores)
        rw [hkeys] at hpw
        have hpair := (List.pairwise_append.mp hpw).2.1
        exact List.rel_of_pairwise_cons hpair (List.mem_map_of_mem Prod.fst h2)

/-- Witness for C9 at a concrete input: identifiers at rank 1 in source 0
and source 1 tie at score 1; the resolver returns the one scanned first,
whose scan position is strictly smaller. -/
theorem claim9_witness :
    idxOfS (scanIds [[⟨some "1111111111111", "uA", none⟩],
        [⟨some "2222222222222", "uB", none⟩]]) "1111111111111" <
      idxOfS (scanIds [[⟨some "1111111111111", "uA", none⟩],
        [⟨some "2222222222222", "uB", none⟩]]) "2222222222222" :=
  (claim9_deterministic_first_maximal_tiebreak
    [[⟨some "1111111111111", "uA", none⟩], [⟨some "2222222222222", "uB", none⟩]]
    [] defaultPenalty 0).2 "1111111111111" "2222222222222"
    (by
      have h1 : startsWith9798 "1111111111111" = false := by decide
      have h2 : startsWith9798 "2222222222222" = false := by decide
      simp [find_canonical_isbn_weighted, buildScores, scoreStore, updScore, pythonTruthy,
        applyPenalty, defaultPenalty, h1, h2, argmaxFirst]
      norm_num [maxStep])
    (by decide) (by decide)
    (by
      rw [getScore_applyPenalty, getScore_applyPenalty,
          getScore_buildScores _ _ (by decide), getScore_buildScores _ _ (by decide),
          if_pos (by decide), if_pos (by decide)]
      have h1 : startsWith9798 "1111111111111" = false := by decide
      have h2 : startsWith9798 "2222222222222" = false := by decide
      simp [h1, h2]
      simp [specScore, storeContrib, firstIdx])

end Bookscout
